import Mathlib

/-!
Verification of the business-report data pipeline
(`part2/main.py` and `excel_report_automation.py`).

The pipeline is shallowly embedded: pandas columns become `Option` fields
(`none` plays the role of NaN/NaT), exact rationals `ℚ` stand for the float
arithmetic, and each pandas operation (type coercion, `dropna`, `fillna`,
`drop_duplicates`, `merge`, `groupby`/`agg`, `sort_values`, `cumsum`,
`rank(method="first")`, `qcut`) is translated into an executable Lean
function on lists.
-/

namespace Pipeline

/-! ### Metric Deriver (`main.py`, step 6 "Calculated columns") -/

/-- The derived financial columns attached to each fact row. -/
structure Metrics where
  gross_sales : ℚ
  discount_amt : ℚ
  net_sales : ℚ
  tax_amt : ℚ
  cogs : ℚ
  profit : ℚ
  margin_pct : ℚ
  deriving DecidableEq, Repr

/-- Step 6 of `main.py`: the calculated columns.  `tax_rate` and `cost`
come from the left-joined product row and may be missing; the code applies
`.fillna(0)` to both (`Option.getD 0` here).  `margin_pct` is
`np.where(net_sales > 0, profit/net_sales, 0)`. -/
def deriveMetrics (qty unit_price discount_pct : ℚ) (tax_rate cost : Option ℚ) : Metrics :=
  let gross := qty * unit_price
  let disc := gross * (discount_pct / 100)
  let net := gross - disc
  let tax := net * tax_rate.getD 0
  let cg := qty * cost.getD 0
  let pr := (net - tax) - cg
  { gross_sales := gross
    discount_amt := disc
    net_sales := net
    tax_amt := tax
    cogs := cg
    profit := pr
    margin_pct := if 0 < net then pr / net else 0 }

/-- C1: for every enriched row the derived metrics satisfy the exact
identities `net_sales = gross_sales - discount_amt`,
`profit = (net_sales - tax_amt) - cogs`, with
`gross_sales = qty * unit_price`,
`discount_amt = gross_sales * (discount_pct / 100)`,
`tax_amt = net_sales * tax_rate` (0 when missing), `cogs = qty * cost`
(0 when missing), and `margin_pct = profit / net_sales` when
`net_sales > 0`, else 0; and the concrete row
`qty=2, unit_price=100, discount_pct=10, tax_rate=0.1, cost=50` yields
gross 200, discount 20, net 180, tax 18, cogs 100, profit 62 and
`margin_pct = 62/180 ≈ 0.3444`. -/
theorem metrics_identities_and_example :
    (∀ (q p d : ℚ) (tr c : Option ℚ),
      (deriveMetrics q p d tr c).net_sales
          = (deriveMetrics q p d tr c).gross_sales - (deriveMetrics q p d tr c).discount_amt ∧
      (deriveMetrics q p d tr c).profit
          = ((deriveMetrics q p d tr c).net_sales - (deriveMetrics q p d tr c).tax_amt)
            - (deriveMetrics q p d tr c).cogs ∧
      (deriveMetrics q p d tr c).gross_sales = q * p ∧
      (deriveMetrics q p d tr c).discount_amt = (deriveMetrics q p d tr c).gross_sales * (d / 100) ∧
      (deriveMetrics q p d tr c).tax_amt = (deriveMetrics q p d tr c).net_sales * tr.getD 0 ∧
      (deriveMetrics q p d tr c).cogs = q * c.getD 0 ∧
      (deriveMetrics q p d tr c).margin_pct
          = (if 0 < (deriveMetrics q p d tr c).net_sales then
              (deriveMetrics q p d tr c).profit / (deriveMetrics q p d tr c).net_sales else 0)) ∧
    ((deriveMetrics 2 100 10 (some (1/10)) (some 50)).gross_sales = 200 ∧
      (deriveMetrics 2 100 10 (some (1/10)) (some 50)).discount_amt = 20 ∧
      (deriveMetrics 2 100 10 (some (1/10)) (some 50)).net_sales = 180 ∧
      (deriveMetrics 2 100 10 (some (1/10)) (some 50)).tax_amt = 18 ∧
      (deriveMetrics 2 100 10 (some (1/10)) (some 50)).cogs = 100 ∧
      (deriveMetrics 2 100 10 (some (1/10)) (some 50)).profit = 62 ∧
      (deriveMetrics 2 100 10 (some (1/10)) (some 50)).margin_pct = 62/180 ∧
      |(62 : ℚ)/180 - 3444/10000| < 1/10000) := by
  refine ⟨fun q p d tr c => ⟨rfl, rfl, rfl, rfl, rfl, rfl, rfl⟩, ?_⟩
  refine ⟨by norm_num [deriveMetrics], by norm_num [deriveMetrics], by norm_num [deriveMetrics],
    by norm_num [deriveMetrics], by norm_num [deriveMetrics], by norm_num [deriveMetrics],
    by norm_num [deriveMetrics], ?_⟩
  rw [show (62 : ℚ)/180 - 3444/10000 = 1/22500 by norm_num,
    abs_of_pos (by norm_num : (0 : ℚ) < 1/22500)]
  norm_num

/-! ### Cleaner (`main.py`, steps 2-3) -/

/-- An order row after the numeric/date coercions of step 3
(`pd.to_datetime` / `pd.to_numeric` with `errors="coerce"`): every cell
that failed to parse, or was empty, is `none` (NaN/NaT).  Dates are
modelled as integer day numbers.  `payment_mode` plays no role in any
claim and is omitted. -/
structure OrderRow where
  order_id : Option ℤ
  order_date : Option ℤ
  customer_id : Option ℤ
  product_id : Option ℤ
  qty : Option ℚ
  unit_price : Option ℚ
  discount_pct : Option ℚ
  deriving DecidableEq, Repr

/-- `orders["discount_pct"] = pd.to_numeric(...).fillna(0)`. -/
def fillDiscount (o : OrderRow) : OrderRow :=
  { o with discount_pct := some (o.discount_pct.getD 0) }

/-- `orders.dropna(subset=["order_id","order_date","customer_id","product_id"])`
keeps exactly the rows satisfying this predicate. -/
def validIds (o : OrderRow) : Bool :=
  o.order_id.isSome && o.order_date.isSome && o.customer_id.isSome && o.product_id.isSome

/-- `orders[orders["qty"] > 0]` keeps exactly these rows
(`NaN > 0` is false in pandas, so a missing qty is dropped too). -/
def qtyPos (o : OrderRow) : Bool :=
  match o.qty with
  | some q => decide (0 < q)
  | none => false

/-- Insert into a ≤-sorted list of rationals. -/
def insertRat (a : ℚ) : List ℚ → List ℚ
  | [] => [a]
  | b :: bs => if a ≤ b then a :: b :: bs else b :: insertRat a bs

/-- Ascending sort of the non-missing values, as `Series.median` sorts them. -/
def sortRat (l : List ℚ) : List ℚ := l.foldr insertRat []

/-- pandas `Series.median()` on the non-missing values: the middle element
of the sorted values for odd length, the mean of the two middle elements
for even length, and NaN (`none`) for an empty series. -/
def pandasMedian (l : List ℚ) : Option ℚ :=
  if l = [] then none
  else
    some (if l.length % 2 = 1 then (sortRat l).getD (l.length / 2) 0
          else ((sortRat l).getD (l.length / 2 - 1) 0 + (sortRat l).getD (l.length / 2) 0) / 2)

/-- `orders["unit_price"].fillna(med)`: a missing price becomes `med`;
when the median itself is undefined (no non-missing price exists at all)
the cell stays missing, exactly as filling with NaN does. -/
def fillPrice (med : Option ℚ) (o : OrderRow) : OrderRow :=
  { o with unit_price := match o.unit_price with
                         | some p => some p
                         | none => med }

/-- Helper for `dedupByKey`: drop any row whose key was already seen. -/
def dedupAux {α β : Type} [DecidableEq β] (key : α → β) (seen : List β) : List α → List α
  | [] => []
  | a :: as =>
      if key a ∈ seen then dedupAux key seen as
      else a :: dedupAux key (key a :: seen) as

/-- pandas `drop_duplicates(subset=[...])`: keep the first row bearing each
key, preserving the row order. -/
def dedupByKey {α β : Type} [DecidableEq β] (key : α → β) (xs : List α) : List α :=
  dedupAux key [] xs

/-- The rows surviving the validity filters of step 3 (`dropna` on the four
identity columns, then `qty > 0`), with the discount imputation already
applied column-wise. -/
def keptOrders (xs : List OrderRow) : List OrderRow :=
  ((xs.map fillDiscount).filter validIds).filter qtyPos

/-- `orders["unit_price"].median()` as evaluated on line 64 of `main.py`:
the median of the non-missing unit prices of the already-filtered frame. -/
def cleanMedian (xs : List OrderRow) : Option ℚ :=
  pandasMedian ((keptOrders xs).filterMap (·.unit_price))

/-- Step 3 of `main.py` end to end: coercions and discount imputation,
validity filters, unit-price median imputation, dedup on `order_id`. -/
def cleanOrders (xs : List OrderRow) : List OrderRow :=
  dedupByKey (·.order_id) ((keptOrders xs).map (fillPrice (cleanMedian xs)))

theorem mem_dedupAux {α β : Type} [DecidableEq β] (key : α → β) :
    ∀ (seen : List β) (xs : List α) (a : α), a ∈ dedupAux key seen xs → a ∈ xs := by
  intro seen xs
  induction xs generalizing seen with
  | nil => intro a h; exact absurd h (by simp [dedupAux])
  | cons b bs ih =>
      intro a h
      simp only [dedupAux] at h
      by_cases hb : key b ∈ seen
      · simp only [hb, if_pos] at h
        exact List.mem_cons_of_mem _ (ih seen a h)
      · simp only [hb, if_neg, not_false_iff] at h
        rcases List.mem_cons.1 h with h | h
        · exact h ▸ List.mem_cons_self _ _
        · exact List.mem_cons_of_mem _ (ih _ a h)

theorem validIds_fillDiscount (o : OrderRow) : validIds (fillDiscount o) = validIds o := rfl

theorem qtyPos_fillDiscount (o : OrderRow) : qtyPos (fillDiscount o) = qtyPos o := rfl

theorem qtyPos_fillPrice (med : Option ℚ) (o : OrderRow) :
    qtyPos (fillPrice med o) = qtyPos o := rfl

theorem validIds_fillPrice (med : Option ℚ) (o : OrderRow) :
    validIds (fillPrice med o) = validIds o := rfl

theorem pandasMedian_isSome {l : List ℚ} (h : l ≠ []) : (pandasMedian l).isSome := by
  simp [pandasMedian, h]

theorem cleanMedian_isSome {xs : List OrderRow}
    (h : ∃ r ∈ xs, (validIds r && qtyPos r) = true ∧ r.unit_price.isSome = true) :
    (cleanMedian xs).isSome := by
  obtain ⟨r, hr, hv, hp⟩ := h
  simp only [Bool.and_eq_true] at hv
  obtain ⟨p, hp⟩ := Option.isSome_iff_exists.1 hp
  apply pandasMedian_isSome
  have hmem : fillDiscount r ∈ keptOrders xs := by
    simp only [keptOrders, List.mem_filter, List.mem_map, qtyPos_fillDiscount,
      validIds_fillDiscount]
    exact ⟨⟨⟨r, hr, rfl⟩, hv.1⟩, hv.2⟩
  intro hnil
  have : p ∈ (keptOrders xs).filterMap (·.unit_price) := by
    apply List.mem_filterMap.2
    exact ⟨fillDiscount r, hmem, by simpa [fillDiscount] using hp⟩
  rw [hnil] at this
  exact List.not_mem_nil _ this

/-- C2 (amended): provided at least one row passing the validity filters
has a non-missing `unit_price` (so that the imputation median exists),
every row surviving the Cleaner has `qty > 0`, all four identity fields
present, and a non-missing `unit_price`; moreover each surviving row
originates from an input row passing those filters, with its missing
`discount_pct` imputed to 0 and its missing `unit_price` imputed with the
run's median. -/
theorem cleanOrders_post (xs : List OrderRow)
    (hmed : ∃ r ∈ xs, (validIds r && qtyPos r) = true ∧ r.unit_price.isSome = true) :
    ∀ o ∈ cleanOrders xs,
      qtyPos o = true ∧ validIds o = true ∧ o.unit_price.isSome = true ∧
      ∃ r ∈ xs, (validIds r && qtyPos r) = true ∧
        o = fillPrice (cleanMedian xs) (fillDiscount r) := by
  intro o ho
  have ho' : o ∈ (keptOrders xs).map (fillPrice (cleanMedian xs)) :=
    mem_dedupAux _ _ _ _ ho
  obtain ⟨k, hk, rfl⟩ := List.mem_map.1 ho'
  have hkept := hk
  simp only [keptOrders, List.mem_filter, List.mem_map] at hk
  obtain ⟨⟨⟨r, hr, rfl⟩, hid⟩, hq⟩ := hk
  refine ⟨by rw [qtyPos_fillPrice]; exact hq,
          by rw [validIds_fillPrice]; exact hid, ?_, r, hr, ?_, rfl⟩
  · cases hpr : (fillDiscount r).unit_price with
    | some p => simp [fillPrice, hpr]
    | none =>
        have := cleanMedian_isSome hmed
        simpa [fillPrice, hpr] using this
  · rw [validIds_fillDiscount] at hid
    rw [qtyPos_fillDiscount] at hq
    rw [hid, hq]
    rfl

/-- C2 counterexample for the claim as stated: one input row with every
identity field present and `qty = 1` but no `unit_price` anywhere in the
run survives the Cleaner with `unit_price` still missing (the imputation
median does not exist, so `fillna` leaves NaN in place). -/
theorem cleanOrders_price_missing_cex :
    ((cleanOrders [⟨some 1, some 0, some 1, some 1, some 1, none, none⟩]).all
      fun o => o.unit_price.isSome) = false ∧
    (cleanOrders [⟨some 1, some 0, some 1, some 1, some 1, none, none⟩]).length = 1 := by
  constructor <;> decide

/-- Witness for `cleanOrders_post` at a one-row input with a present price. -/
theorem cleanOrders_post_witness :
    qtyPos (⟨some 1, some 0, some 1, some 1, some 1, some 5, some 0⟩ : OrderRow) = true ∧
    validIds (⟨some 1, some 0, some 1, some 1, some 1, some 5, some 0⟩ : OrderRow) = true ∧
    (⟨some 1, some 0, some 1, some 1, some 1, some 5, some 0⟩ : OrderRow).unit_price.isSome
      = true ∧
    ∃ r ∈ [(⟨some 1, some 0, some 1, some 1, some 1, some 5, none⟩ : OrderRow)],
      (validIds r && qtyPos r) = true ∧
      (⟨some 1, some 0, some 1, some 1, some 1, some 5, some 0⟩ : OrderRow)
        = fillPrice (cleanMedian [⟨some 1, some 0, some 1, some 1, some 1, some 5, none⟩])
            (fillDiscount r) :=
  cleanOrders_post [⟨some 1, some 0, some 1, some 1, some 1, some 5, none⟩]
    ⟨⟨some 1, some 0, some 1, some 1, some 1, some 5, none⟩, by decide, by decide, by decide⟩
    ⟨some 1, some 0, some 1, some 1, some 1, some 5, some 0⟩ (by decide)

/-! ### Deduplication (`main.py`, line 67) -/

theorem dedupAux_keys {α β : Type} [DecidableEq β] (key : α → β) :
    ∀ (seen : List β) (xs : List α),
      (∀ b ∈ dedupAux key seen xs, key b ∉ seen) ∧
      ((dedupAux key seen xs).map key).Nodup := by
  intro seen xs
  induction xs generalizing seen with
  | nil => simp [dedupAux]
  | cons c cs ih =>
      by_cases hc : key c ∈ seen
      · simpa [dedupAux, hc] using ih seen
      · have ihs := ih (key c :: seen)
        simp only [dedupAux, hc, if_neg, not_false_iff]
        constructor
        · intro b hb
          rcases List.mem_cons.1 hb with rfl | hb
          · exact hc
          · have := ihs.1 b hb
            exact fun hbs => this (List.mem_cons_of_mem _ hbs)
        · simp only [List.map_cons, List.nodup_cons]
          refine ⟨?_, ihs.2⟩
          intro hmem
          obtain ⟨b, hb, hkb⟩ := List.mem_map.1 hmem
          exact ihs.1 b hb (hkb ▸ List.mem_cons_self _ _)

theorem dedupAux_find {α β : Type} [DecidableEq β] (key : α → β) :
    ∀ (seen : List β) (xs : List α) (a : α), a ∈ dedupAux key seen xs →
      xs.find? (fun b => key b = key a) = some a := by
  intro seen xs
  induction xs generalizing seen with
  | nil => simp [dedupAux]
  | cons c cs ih =>
      intro a ha
      by_cases hc : key c ∈ seen
      · simp only [dedupAux, hc, if_pos] at ha
        have hnot : key a ∉ seen := (dedupAux_keys key seen cs).1 a ha
        have hne : key c ≠ key a := fun h => hnot (h ▸ hc)
        rw [List.find?_cons_of_neg _ (by simpa using hne)]
        exact ih seen a ha
      · simp only [dedupAux, hc, if_neg, not_false_iff] at ha
        rcases List.mem_cons.1 ha with rfl | ha
        · rw [List.find?_cons_of_pos _ (by simp)]
        · have hnot : key a ∉ key c :: seen := (dedupAux_keys key _ cs).1 a ha
          have hne : key c ≠ key a := fun h => hnot (h ▸ List.mem_cons_self _ _)
          rw [List.find?_cons_of_neg _ (by simpa using hne)]
          exact ih _ a ha

theorem dedupAux_covers {α β : Type} [DecidableEq β] (key : α → β) :
    ∀ (seen : List β) (xs : List α) (r : α), r ∈ xs →
      key r ∈ seen ∨ ∃ o ∈ dedupAux key seen xs, key o = key r := by
  intro seen xs
  induction xs generalizing seen with
  | nil => simp
  | cons c cs ih =>
      intro r hr
      by_cases hc : key c ∈ seen
      · simp only [dedupAux, hc, if_pos]
        rcases List.mem_cons.1 hr with rfl | hr
        · exact Or.inl hc
        · exact ih seen r hr
      · simp only [dedupAux, hc, if_neg, not_false_iff]
        rcases List.mem_cons.1 hr with h | hr
        · exact Or.inr ⟨c, List.mem_cons_self _ _, by rw [h]⟩
        · rcases ih (key c :: seen) r hr with h | ⟨o, ho, hko⟩
          · rcases List.mem_cons.1 h with h | h
            · exact Or.inr ⟨c, List.mem_cons_self _ _, h.symm⟩
            · exact Or.inl h
          · exact Or.inr ⟨o, List.mem_cons_of_mem _ ho, hko⟩

/-- C8 (amended): after the Cleaner, order ids are pairwise distinct; each
surviving row is the *first* row carrying its `order_id` among the rows
that passed the validity filters (with imputations applied), and every
such filtered row's `order_id` is still represented.  (The claim's "first
occurrence among input rows" holds only relative to the rows that survive
the validity filter, since `drop_duplicates` runs after that filter.) -/
theorem cleanOrders_dedup (xs : List OrderRow) :
    ((cleanOrders xs).map (·.order_id)).Nodup ∧
    (∀ o ∈ cleanOrders xs,
      ((keptOrders xs).map (fillPrice (cleanMedian xs))).find?
        (fun r => r.order_id = o.order_id) = some o) ∧
    (∀ r ∈ (keptOrders xs).map (fillPrice (cleanMedian xs)),
      ∃ o ∈ cleanOrders xs, o.order_id = r.order_id) := by
  refine ⟨(dedupAux_keys _ [] _).2, ?_, ?_⟩
  · intro o ho
    exact dedupAux_find _ [] _ o ho
  · intro r hr
    rcases dedupAux_covers (·.order_id) [] _ r hr with h | h
    · exact absurd h (List.not_mem_nil _)
    · exact h

/-- A duplicate `order_id = 7` pair: the first occurrence fails the
validity filter (`qty = -1`), the second passes. -/
def dupInvalidFirst : OrderRow := ⟨some 7, some 0, some 1, some 1, some (-1), some 5, some 0⟩

/-- Second occurrence of `order_id = 7`, a valid row. -/
def dupValidSecond : OrderRow := ⟨some 7, some 0, some 1, some 1, some 2, some 5, some 0⟩

/-- C8 counterexample for the claim as stated: when the first input
occurrence of an `order_id` fails the validity filter, the Cleaner keeps a
*later* occurrence, not the first one — dedup runs only after the filter. -/
theorem cleanOrders_dedup_cex :
    cleanOrders [dupInvalidFirst, dupValidSecond] = [dupValidSecond] ∧
    dupValidSecond ≠ dupInvalidFirst := by
  constructor <;> decide

/-- Witness for `cleanOrders_dedup`: the kept row for `order_id = 7` is the
first filtered row with that id. -/
theorem cleanOrders_dedup_witness :
    ((keptOrders [dupInvalidFirst, dupValidSecond]).map
        (fillPrice (cleanMedian [dupInvalidFirst, dupValidSecond]))).find?
      (fun r => r.order_id = dupValidSecond.order_id) = some dupValidSecond :=
  (cleanOrders_dedup [dupInvalidFirst, dupValidSecond]).2.1 dupValidSecond (by decide)

/-! ### Text normalization (`main.py`, step 2 "Cleaning - Customers") -/

/-- pandas `.astype(str)` on a cell: a missing value (NaN) stringifies to
`"nan"`, any other cell keeps its string. -/
def pyAstype : Option String → String
  | none => "nan"
  | some s => s

/-- Python `str.strip()`: drop leading and trailing whitespace. -/
def pyStrip (s : String) : String :=
  String.mk (((s.data.dropWhile (·.isWhitespace)).reverse.dropWhile (·.isWhitespace)).reverse)

/-- Helper for `pyTitle`: the flag records whether the previous character
was alphabetic. -/
def titleChars : Bool → List Char → List Char
  | _, [] => []
  | prevAlpha, c :: cs =>
      if c.isAlpha then
        (if prevAlpha then c.toLower else c.toUpper) :: titleChars true cs
      else c :: titleChars false cs

/-- Python `str.title()`: uppercase every alphabetic character that follows
a non-alphabetic one, lowercase the rest. -/
def pyTitle (s : String) : String := String.mk (titleChars false s.data)

/-- The normalization `.astype(str).str.strip().str.title()` applied to the
`region`, `city` and `segment` columns of Customers. -/
def normText (c : Option String) : String := pyTitle (pyStrip (pyAstype c))

/-! ### Reconciler (`main.py`, steps 4-5) -/

/-- A raw Customers row (`customer_name` and `signup_date` play no role in
any claim and are omitted). -/
structure CustomerRow where
  customer_id : Option ℤ
  city : Option String
  region : Option String
  segment : Option String
  deriving DecidableEq, Repr

/-- Step 2 of `main.py`: normalize the three text columns.  The result
cells are always present — `astype(str)` turns NaN into the literal string
`"nan"`, which the title-casing renders as `"Nan"`. -/
def cleanCustomer (c : CustomerRow) : CustomerRow :=
  { c with
    region := some (normText c.region)
    city := some (normText c.city)
    segment := some (normText c.segment) }

/-- A Products row (`supplier` is never used downstream and is omitted). -/
structure ProductRow where
  product_id : Option ℤ
  product_name : Option String
  category : Option String
  cost : Option ℚ
  tax_rate : Option ℚ
  deriving DecidableEq, Repr

/-- A Returns row (`reason` is never used and is omitted). -/
structure ReturnRow where
  order_id : Option ℤ
  return_date : Option ℤ
  deriving DecidableEq, Repr

/-- pandas join-key equality: two keys match only when both are present and
equal — NaN never matches anything in a merge. -/
def keyMatches (a b : Option ℤ) : Bool :=
  match a, b with
  | some x, some y => decide (x = y)
  | _, _ => false

/-- Left-join lookup against Products on `product_id`.  The code validates
the merge as `many_to_one`, so the right keys are unique and the first
match is the only match. -/
def lookupProduct (ps : List ProductRow) (k : Option ℤ) : Option ProductRow :=
  ps.find? (fun p => keyMatches p.product_id k)

/-- Left-join lookup against Customers on `customer_id` (validated
`many_to_one` in the code). -/
def lookupCustomer (cs : List CustomerRow) (k : Option ℤ) : Option CustomerRow :=
  cs.find? (fun c => keyMatches c.customer_id k)

/-- Step 4: `returns[["order_id"]].drop_duplicates()` — the distinct
returned order ids. -/
def returnIds (rs : List ReturnRow) : List (Option ℤ) :=
  dedupByKey id (rs.map (·.order_id))

/-- A row of the `Model_Data` fact table: the cleaned order with the
left-joined product and customer attributes and the `is_returned` flag
(`fillna(0).astype(int)` makes it the integer 1 or 0). -/
structure ModelRow where
  order : OrderRow
  product_name : Option String
  category : Option String
  cost : Option ℚ
  tax_rate : Option ℚ
  city : Option String
  region : Option String
  segment : Option String
  is_returned : ℕ
  deriving DecidableEq, Repr

/-- Step 5 of `main.py`: the three left joins building the fact table.
Because the Products and Customers merges are validated `many_to_one` and
the Returns flag frame is deduplicated, each order yields exactly one fact
row, so the merge chain is a `map` over the cleaned orders. -/
def buildModel (orders : List OrderRow) (products : List ProductRow)
    (customers : List CustomerRow) (rets : List ReturnRow) : List ModelRow :=
  orders.map fun o =>
    let p := lookupProduct products o.product_id
    let c := lookupCustomer customers o.customer_id
    { order := o
      product_name := p.bind (·.product_name)
      category := p.bind (·.category)
      cost := p.bind (·.cost)
      tax_rate := p.bind (·.tax_rate)
      city := c.bind (·.city)
      region := c.bind (·.region)
      segment := c.bind (·.segment)
      is_returned := if (returnIds rets).any (fun k => keyMatches k o.order_id) then 1 else 0 }

theorem mem_returnIds {rs : List ReturnRow} {k : Option ℤ} :
    k ∈ returnIds rs ↔ ∃ r ∈ rs, r.order_id = k := by
  constructor
  · intro h
    have := mem_dedupAux id [] _ _ h
    obtain ⟨r, hr, hrk⟩ := List.mem_map.1 this
    exact ⟨r, hr, hrk⟩
  · rintro ⟨r, hr, rfl⟩
    have hmem : r.order_id ∈ rs.map (·.order_id) := List.mem_map.2 ⟨r, hr, rfl⟩
    rcases dedupAux_covers id [] _ _ hmem with h | ⟨o, ho, hko⟩
    · exact absurd h (List.not_mem_nil _)
    · have hko' : o = r.order_id := hko
      exact hko' ▸ ho

/-- C5: the Returns integration is a left join of the cleaned orders
against the distinct returned order ids: the fact table has exactly one
row per cleaned order (a Return row whose `order_id` matches no cleaned
order adds nothing), and a fact row's `is_returned` flag is 1 exactly when
some Return row carries its `order_id`, 0 otherwise. -/
theorem model_returns_join (orders : List OrderRow) (products : List ProductRow)
    (customers : List CustomerRow) (rets : List ReturnRow) (m : ModelRow)
    (hm : m ∈ buildModel orders products customers rets) :
    (buildModel orders products customers rets).length = orders.length ∧
    (m.is_returned = 1 ∨ m.is_returned = 0) ∧
    (m.is_returned = 1 ↔ ∃ r ∈ rets, keyMatches r.order_id m.order.order_id = true) := by
  refine ⟨List.length_map _ _, ?_⟩
  obtain ⟨o, _, rfl⟩ := List.mem_map.1 hm
  simp only
  by_cases hany : (returnIds rets).any (fun k => keyMatches k o.order_id) = true
  · refine ⟨Or.inl (by simp [hany]), ?_⟩
    simp only [hany, if_true]
    obtain ⟨k, hk, hmatch⟩ := List.any_eq_true.1 hany
    obtain ⟨r, hr, hrk⟩ := mem_returnIds.1 hk
    simp only [true_iff, eq_self_iff_true]
    exact ⟨r, hr, by rw [hrk]; exact hmatch⟩
  · refine ⟨Or.inr (by simp [hany]), ?_⟩
    simp only [hany, if_false]
    constructor
    · intro h
      exact absurd h (by norm_num)
    · rintro ⟨r, hr, hmatch⟩
      have hk : r.order_id ∈ returnIds rets := mem_returnIds.2 ⟨r, hr, rfl⟩
      exact absurd (List.any_eq_true.2 ⟨r.order_id, hk, hmatch⟩) hany

/-- A cleaned order used as concrete sample data. -/
def orderOne : OrderRow := ⟨some 1, some 0, some 1, some 1, some 2, some 5, some 0⟩

/-- The fact row built from `orderOne` with empty Products/Customers and a
Returns table referencing only the non-existent order 99. -/
def modelRowOne : ModelRow := ⟨orderOne, none, none, none, none, none, none, none, 0⟩

/-- Witness for `model_returns_join`: a Return row for the non-existent
order 99 leaves a single fact row with `is_returned = 0`. -/
theorem model_returns_join_witness :
    (buildModel [orderOne] [] [] [⟨some 99, none⟩]).length = [orderOne].length ∧
    (modelRowOne.is_returned = 1 ∨ modelRowOne.is_returned = 0) ∧
    (modelRowOne.is_returned = 1 ↔
      ∃ r ∈ [(⟨some 99, none⟩ : ReturnRow)],
        keyMatches r.order_id modelRowOne.order.order_id = true) :=
  model_returns_join [orderOne] [] [] [⟨some 99, none⟩] modelRowOne (by decide)

/-! ### Orphan-customer accounting (`main.py`, lines 49-53 and 81-83) -/

theorem lookupCustomer_clean_isNone (cs : List CustomerRow) (k : Option ℤ) :
    (lookupCustomer (cs.map cleanCustomer) k).isNone = (lookupCustomer cs k).isNone := by
  induction cs with
  | nil => rfl
  | cons c cs ih =>
      simp only [List.map_cons, lookupCustomer, List.find?_cons] at *
      have hkey : (cleanCustomer c).customer_id = c.customer_id := rfl
      cases hmatch : keyMatches c.customer_id k with
      | true => simp [hkey, hmatch]
      | false => simpa [hkey, hmatch] using ih

/-- C10: the Cleaner leaves no missing `region`, `city` or `segment` cell
in Customers — a missing input cell is coerced by
`.astype(str).str.strip().str.title()` to the literal string `"Nan"`.
Consequently a fact-table row has a missing `region` exactly when its
`customer_id` matched no Customers row, and the `orphan_customers` KPI
(`model["region"].isna().sum()`) equals the number of cleaned orders whose
`customer_id` is unmatched. -/
theorem customers_normalized_orphans (orders : List OrderRow) (products : List ProductRow)
    (customers : List CustomerRow) (rets : List ReturnRow) (c : CustomerRow)
    (_hc : c ∈ customers) :
    normText none = "Nan" ∧
    ((cleanCustomer c).region.isSome = true ∧ (cleanCustomer c).city.isSome = true ∧
      (cleanCustomer c).segment.isSome = true) ∧
    (buildModel orders products (customers.map cleanCustomer) rets).countP
        (fun m => m.region.isNone)
      = orders.countP (fun o => (lookupCustomer customers o.customer_id).isNone) := by
  refine ⟨by decide, ⟨rfl, rfl, rfl⟩, ?_⟩
  rw [buildModel, List.countP_map]
  apply List.countP_congr
  intro o _
  have h : ((lookupCustomer (customers.map cleanCustomer) o.customer_id).bind
      (fun x => x.region)).isNone = (lookupCustomer customers o.customer_id).isNone := by
    rw [← lookupCustomer_clean_isNone]
    cases hfind : lookupCustomer (customers.map cleanCustomer) o.customer_id with
    | none => rfl
    | some cc =>
        obtain ⟨c0, _, rfl⟩ := List.mem_map.1 (List.mem_of_find?_eq_some hfind)
        rfl
  exact iff_of_eq (congrArg (· = true) h)

/-- Witness for `customers_normalized_orphans`: one customer, one matching
order and one orphan order. -/
theorem customers_normalized_orphans_witness :
    normText none = "Nan" ∧
    ((cleanCustomer ⟨some 1, none, some " east ", none⟩).region.isSome = true ∧
      (cleanCustomer ⟨some 1, none, some " east ", none⟩).city.isSome = true ∧
      (cleanCustomer ⟨some 1, none, some " east ", none⟩).segment.isSome = true) ∧
    (buildModel [orderOne, ⟨some 2, some 0, some 77, some 1, some 1, some 5, some 0⟩] []
        ([⟨some 1, none, some " east ", none⟩].map cleanCustomer) []).countP
        (fun m => m.region.isNone)
      = [orderOne, ⟨some 2, some 0, some 77, some 1, some 1, some 5, some 0⟩].countP
          (fun o =>
            (lookupCustomer [⟨some 1, none, some " east ", none⟩] o.customer_id).isNone) :=
  customers_normalized_orphans
    [orderOne, ⟨some 2, some 0, some 77, some 1, some 1, some 5, some 0⟩] []
    [⟨some 1, none, some " east ", none⟩] [] ⟨some 1, none, some " east ", none⟩ (by decide)

/-! ### Aggregator (`main.py`, steps 7-9) -/

/-- The distinct group keys of `groupby(key)`, in first-occurrence order.
(pandas lists groups in sorted key order; every claim below is insensitive
to the order of the groups.) -/
def groupKeys {κ α : Type} [DecidableEq κ] (key : α → κ) (xs : List α) : List κ :=
  dedupByKey id (xs.map key)

/-- `groupby(key, dropna=False).agg(total=(val, "sum"))`: one row per
distinct key with the sum of `val` over that group.  `dropna=False` keeps
a missing key as a group of its own, which the `Option` key type models
directly. -/
def groupSum {κ α : Type} [DecidableEq κ] (key : α → κ) (val : α → ℚ) (xs : List α) :
    List (κ × ℚ) :=
  (groupKeys key xs).map (fun k => (k, ((xs.filter (fun x => key x = k)).map val).sum))

theorem sum_filter_partition {α : Type} (p : α → Bool) (val : α → ℚ) (xs : List α) :
    ((xs.filter p).map val).sum + ((xs.filter (fun x => !(p x))).map val).sum
      = (xs.map val).sum := by
  induction xs with
  | nil => simp
  | cons a as ih =>
      cases hpa : p a <;>
        simp only [List.filter_cons, hpa, Bool.not_true, Bool.not_false, if_pos, if_neg,
          List.map_cons, List.sum_cons, Bool.false_eq_true, not_false_iff, ite_true, ite_false]
      · rw [← ih]; ring
      · rw [← ih]; ring

theorem sum_over_groups {κ α : Type} [DecidableEq κ] (key : α → κ) (val : α → ℚ) :
    ∀ (ks : List κ) (xs : List α), ks.Nodup → (∀ x ∈ xs, key x ∈ ks) →
      (ks.map (fun k => ((xs.filter (fun x => key x = k)).map val).sum)).sum
        = (xs.map val).sum := by
  intro ks
  induction ks with
  | nil =>
      intro xs _ hcov
      cases xs with
      | nil => simp
      | cons a as => exact absurd (hcov a (List.mem_cons_self _ _)) (List.not_mem_nil _)
  | cons k ks ih =>
      intro xs hnd hcov
      simp only [List.map_cons, List.sum_cons]
      have hrest : ∀ k2 ∈ ks,
          ((xs.filter (fun x => !(decide (key x = k)))).filter (fun x => key x = k2))
            = xs.filter (fun x => key x = k2) := by
        intro k2 hk2
        rw [List.filter_filter]
        apply List.filter_congr
        intro x _
        by_cases hx : key x = k2
        · have hne : ¬k2 = k := fun h => (List.nodup_cons.1 hnd).1 (h ▸ hk2)
          simp [hx, hne]
        · simp [hx]
      have hcov2 : ∀ x ∈ xs.filter (fun x => !(decide (key x = k))), key x ∈ ks := by
        intro x hx
        obtain ⟨hxs, hpx⟩ := List.mem_filter.1 hx
        have : key x ≠ k := by simpa using hpx
        rcases List.mem_cons.1 (hcov x hxs) with h | h
        · exact absurd h this
        · exact h
      have := ih (xs.filter (fun x => !(decide (key x = k)))) (List.nodup_cons.1 hnd).2 hcov2
      calc ((xs.filter (fun x => key x = k)).map val).sum
            + (ks.map (fun k2 => ((xs.filter (fun x => key x = k2)).map val).sum)).sum
      _ = ((xs.filter (fun x => key x = k)).map val).sum
            + (ks.map (fun k2 => (((xs.filter (fun x => !(decide (key x = k)))).filter
                (fun x => key x = k2)).map val).sum)).sum := by
            congr 1
            rw [List.map_congr_left]
            intro k2 hk2
            rw [hrest k2 hk2]
      _ = ((xs.filter (fun x => key x = k)).map val).sum
            + ((xs.filter (fun x => !(decide (key x = k)))).map val).sum := by rw [this]
      _ = (xs.map val).sum := by
            have hp := sum_filter_partition (fun x => decide (key x = k)) val xs
            simpa using hp

theorem groupSum_total {κ α : Type} [DecidableEq κ] (key : α → κ) (val : α → ℚ)
    (xs : List α) : ((groupSum key val xs).map (·.2)).sum = (xs.map val).sum := by
  rw [groupSum, List.map_map]
  have hnd : (groupKeys key xs).Nodup := by
    have := (dedupAux_keys (id : κ → κ) [] (xs.map key)).2
    simpa [groupKeys, dedupByKey] using this
  have hcov : ∀ x ∈ xs, key x ∈ groupKeys key xs := by
    intro x hx
    have hmem : key x ∈ xs.map key := List.mem_map.2 ⟨x, hx, rfl⟩
    rcases dedupAux_covers id [] _ _ hmem with h | ⟨o, ho, hko⟩
    · exact absurd h (List.not_mem_nil _)
    · have hko' : o = key x := hko
      exact hko' ▸ ho
  exact sum_over_groups key val (groupKeys key xs) xs hnd hcov

/-- The `net_sales` value of a fact row, as computed by step 6.  (On
cleaned rows `qty`, `unit_price` and `discount_pct` are always present;
the `getD 0` defaults only name the total functions.) -/
def netSalesOf (m : ModelRow) : ℚ :=
  (deriveMetrics (m.order.qty.getD 0) (m.order.unit_price.getD 0)
    (m.order.discount_pct.getD 0) m.tax_rate m.cost).net_sales

/-- The `(month, region)` group key of a fact row.  `to_period("M")` is
abstracted as an arbitrary bucketing function `month` on the day numbers
(every claim about the pivots holds for each such function). -/
def monthRegionKey (month : ℤ → ℤ) (m : ModelRow) : Option ℤ × Option String :=
  (m.order.order_date.map month, m.region)

/-- The `net_sales` column of the `Pivot_Region_Month` table
(step 8: `groupby(["month","region"], dropna=False).agg(net_sales=...)`). -/
def pivotRegionMonthNet (month : ℤ → ℤ) (rows : List ModelRow) :
    List ((Option ℤ × Option String) × ℚ) :=
  groupSum (monthRegionKey month) netSalesOf rows

/-- The `Total Net Sales` KPI of step 7: `model["net_sales"].sum()`. -/
def totalNetKPI (rows : List ModelRow) : ℚ := (rows.map netSalesOf).sum

/-- C3: the sum of the `net_sales` column over all groups of
`Pivot_Region_Month` (grouping keeps null-region groups) equals the
`Total Net Sales` KPI — exactly, in exact arithmetic, hence within any
floating tolerance. -/
theorem pivot_region_month_total (month : ℤ → ℤ) (rows : List ModelRow) :
    ((pivotRegionMonthNet month rows).map (·.2)).sum = totalNetKPI rows :=
  groupSum_total _ _ rows

/-! ### Target vs Actual (`main.py`, step 9) -/

/-- A Targets row; `month` is bucketed like the fact table's month key and
`target_sales` may be missing. -/
structure TargetRow where
  month : Option ℤ
  region : Option String
  target_sales : Option ℚ
  deriving DecidableEq, Repr

/-- The left-join lookup of `actual.merge(tgt, on=["month","region"],
how="left")`.  pandas `merge` matches missing keys with each other, so
plain `Option` equality is the join condition; the spec expects one Targets
row per `(month, region)`, making the first match the only match. -/
def lookupTarget (ts : List TargetRow) (k : Option ℤ × Option String) : Option TargetRow :=
  ts.find? (fun t => decide (t.month = k.1) && decide (t.region = k.2))

/-- `np.where(tva["target_sales"] > 0, net_sales/target_sales, np.nan)`:
the achievement ratio for a group with actual net sales `actual`, `none`
(NaN) when the group has no target row, a missing target value, or a
target that is not strictly positive. -/
def achievementPct (ts : List TargetRow) (k : Option ℤ × Option String) (actual : ℚ) :
    Option ℚ :=
  match lookupTarget ts k with
  | none => none
  | some t =>
      match t.target_sales with
      | none => none
      | some tv => if 0 < tv then some (actual / tv) else none

/-- The `Target_vs_Actual` table: the grouped actuals with the joined
achievement column. -/
def targetVsActual (month : ℤ → ℤ) (rows : List ModelRow) (ts : List TargetRow) :
    List ((Option ℤ × Option String) × ℚ × Option ℚ) :=
  (pivotRegionMonthNet month rows).map (fun g => (g.1, g.2, achievementPct ts g.1 g.2))

/-- C4: in `Target_vs_Actual`, each `(month, region)` group's
`achievement_pct` equals actual `net_sales` divided by `target_sales`
whenever the joined target is strictly positive, and is the null marker
`none` — distinguishable from 0, never 0 or an infinity — whenever the
group has no target row, a missing target value, or `target_sales = 0`. -/
theorem target_vs_actual_achievement (month : ℤ → ℤ) (rows : List ModelRow)
    (ts : List TargetRow) (e : (Option ℤ × Option String) × ℚ × Option ℚ)
    (he : e ∈ targetVsActual month rows ts) :
    (∀ tv : ℚ, (lookupTarget ts e.1).bind (·.target_sales) = some tv → 0 < tv →
        e.2.2 = some (e.2.1 / tv)) ∧
    ((lookupTarget ts e.1).bind (·.target_sales) = some 0 → e.2.2 = none) ∧
    (lookupTarget ts e.1 = none → e.2.2 = none) ∧
    (e.2.2 = none ∨ ∃ tv : ℚ, 0 < tv ∧
      (lookupTarget ts e.1).bind (·.target_sales) = some tv ∧ e.2.2 = some (e.2.1 / tv)) := by
  obtain ⟨g, _, rfl⟩ := List.mem_map.1 he
  simp only
  cases hfind : lookupTarget ts g.1 with
  | none =>
      refine ⟨?_, ?_, ?_, Or.inl ?_⟩ <;> simp [achievementPct, hfind]
  | some t =>
      cases hts : t.target_sales with
      | none =>
          refine ⟨?_, ?_, ?_, Or.inl ?_⟩ <;> simp [achievementPct, hfind, hts]
      | some tv0 =>
          by_cases hpos : 0 < tv0
          · refine ⟨?_, ?_, ?_, Or.inr ⟨tv0, hpos, ?_, ?_⟩⟩
            · intro tv htv _
              have htv0 : tv0 = tv := by simpa [hts] using htv
              subst htv0
              simp [achievementPct, hfind, hts, hpos]
            · intro htv
              have htv0 : tv0 = 0 := by simpa [hts] using htv
              exact absurd (htv0 ▸ hpos) (lt_irrefl 0)
            · intro h
              exact absurd h (by simp)
            · simp [hts]
            · simp [achievementPct, hfind, hts, hpos]
          · refine ⟨?_, ?_, ?_, Or.inl ?_⟩
            · intro tv htv hpos2
              have htv0 : tv0 = tv := by simpa [hts] using htv
              exact absurd (htv0 ▸ hpos2) hpos
            · intro _
              simp [achievementPct, hfind, hts, hpos]
            · intro h
              exact absurd h (by simp)
            · simp [achievementPct, hfind, hts, hpos]

/-- Witness for `target_vs_actual_achievement`: a single-row fact table
whose `(month, region)` group carries an explicit `target_sales = 0`
target — the achievement is reported as `none`, not 0. -/
theorem target_vs_actual_witness :
    (∀ tv : ℚ, (lookupTarget [⟨some 0, none, some 0⟩]
        ((some 0, none) : Option ℤ × Option String)).bind (·.target_sales) = some tv →
        0 < tv → (none : Option ℚ) = some (netSalesOf modelRowOne / tv)) ∧
    ((lookupTarget [⟨some 0, none, some 0⟩]
        ((some 0, none) : Option ℤ × Option String)).bind (·.target_sales) = some 0 →
      (none : Option ℚ) = none) ∧
    (lookupTarget [⟨some 0, none, some 0⟩]
        ((some 0, none) : Option ℤ × Option String) = none →
      (none : Option ℚ) = none) ∧
    ((none : Option ℚ) = none ∨ ∃ tv : ℚ, 0 < tv ∧
      (lookupTarget [⟨some 0, none, some 0⟩]
          ((some 0, none) : Option ℤ × Option String)).bind (·.target_sales) = some tv ∧
      (none : Option ℚ) = some (netSalesOf modelRowOne / tv)) :=
  target_vs_actual_achievement id [modelRowOne] [⟨some 0, none, some 0⟩]
    ((some 0, none), netSalesOf modelRowOne, none)
    (by simp [targetVsActual, pivotRegionMonthNet, groupSum, groupKeys, dedupByKey,
      dedupAux, buildModel, monthRegionKey, modelRowOne, orderOne, achievementPct,
      lookupTarget])

/-! ### Pareto ranking (`main.py`, step 10) -/

/-- Insert into a list sorted descending by `val` (used for
`sort_values("net_sales", ascending=False)`; the claims are insensitive to
the order among ties, which pandas' default unstable sort leaves
unspecified anyway). -/
def insertDescBy {α : Type} (val : α → ℚ) (a : α) : List α → List α
  | [] => [a]
  | b :: bs => if val b ≤ val a then a :: b :: bs else b :: insertDescBy val a bs

/-- Sort a list descending by `val`. -/
def sortDescBy {α : Type} (val : α → ℚ) (l : List α) : List α :=
  l.foldr (insertDescBy val) []

/-- `model.groupby("product_name")["net_sales"].sum()`: per-product net
sales.  groupby's default `dropna=True` drops rows with a missing product
name (orphan products), hence the `filterMap`. -/
def paretoGroups (rows : List ModelRow) : List (String × ℚ) :=
  groupSum Prod.fst Prod.snd
    (rows.filterMap (fun m => m.product_name.map (fun n => (n, netSalesOf m))))

/-- Running cumulative sums starting from `acc` (`Series.cumsum()`). -/
def cumFrom (acc : ℚ) : List ℚ → List ℚ
  | [] => []
  | v :: vs => (acc + v) :: cumFrom (acc + v) vs

/-- The per-product net sales in ranked (descending) order. -/
def paretoVals (rows : List ModelRow) : List ℚ :=
  (sortDescBy Prod.snd (paretoGroups rows)).map Prod.snd

/-- The `cum_pct` column: `prod["cum_sales"].cumsum() / prod["net_sales"].sum()`. -/
def paretoPcts (rows : List ModelRow) : List ℚ :=
  (cumFrom 0 (paretoVals rows)).map (· / (paretoVals rows).sum)

/-- The `cum_pct` column of the written `Pareto_Products` sheet:
`prod.head(200)` caps the output at the top 200 products. -/
def paretoOutput (rows : List ModelRow) : List ℚ := (paretoPcts rows).take 200

theorem insertDescBy_perm {α : Type} (val : α → ℚ) (a : α) (l : List α) :
    (insertDescBy val a l).Perm (a :: l) := by
  induction l with
  | nil => exact List.Perm.refl _
  | cons b bs ih =>
      simp only [insertDescBy]
      by_cases h : val b ≤ val a
      · rw [if_pos h]
      · rw [if_neg h]
        exact (List.Perm.cons b ih).trans (List.Perm.swap a b bs)

theorem sortDescBy_perm {α : Type} (val : α → ℚ) (l : List α) :
    (sortDescBy val l).Perm l := by
  induction l with
  | nil => exact List.Perm.refl _
  | cons b bs ih =>
      exact (insertDescBy_perm val b (sortDescBy val bs)).trans (List.Perm.cons b ih)

theorem cumFrom_head? (acc : ℚ) (vs : List ℚ) :
    (cumFrom acc vs).head? = vs.head?.map (acc + ·) := by
  cases vs <;> rfl

theorem cumFrom_chain (vs : List ℚ) (hpos : ∀ v ∈ vs, 0 ≤ v) :
    ∀ acc : ℚ, List.Chain' (· ≤ ·) (cumFrom acc vs) := by
  induction vs with
  | nil => intro acc; exact List.chain'_nil
  | cons v vs ih =>
      intro acc
      rw [cumFrom, List.chain'_cons']
      constructor
      · intro y hy
        rw [cumFrom_head?] at hy
        cases hvs : vs.head? with
        | none => rw [hvs] at hy; exact absurd hy (by simp)
        | some w =>
            rw [hvs] at hy
            have hw : 0 ≤ w := hpos w (List.mem_cons_of_mem _ (List.mem_of_mem_head? hvs))
            have : y = acc + v + w := by simpa using hy.symm
            rw [this]
            linarith
      · exact ih (fun w hw => hpos w (List.mem_cons_of_mem _ hw)) (acc + v)

theorem cumFrom_getLast? (vs : List ℚ) (hne : vs ≠ []) :
    ∀ acc : ℚ, (cumFrom acc vs).getLast? = some (acc + vs.sum) := by
  induction vs with
  | nil => exact absurd rfl hne
  | cons v vs ih =>
      intro acc
      cases hvs : vs with
      | nil => subst hvs; simp [cumFrom]
      | cons w ws =>
          subst hvs
          rw [cumFrom]
          have hcons : cumFrom (acc + v) (w :: ws) = (acc + v + w) :: cumFrom (acc + v + w) ws :=
            rfl
          rw [hcons, List.getLast?_cons_cons, ← hcons, ih (by simp) (acc + v)]
          congr 1
          simp only [List.sum_cons]
          ring

theorem cumFrom_take_lt (vs : List ℚ) (hpos : ∀ v ∈ vs, 0 < v) :
    ∀ (n : ℕ) (acc : ℚ), n < vs.length →
      ∀ c ∈ (cumFrom acc vs).take n, c < acc + vs.sum := by
  induction vs with
  | nil => intro n acc hn; exact absurd hn (by simp)
  | cons v vs ih =>
      intro n acc hn c hc
      cases n with
      | zero => exact absurd hc (by simp)
      | succ m =>
          rw [cumFrom, List.take_succ_cons] at hc
          rcases List.mem_cons.1 hc with rfl | hc
          · have hvs : vs ≠ [] := by
              intro h
              rw [h] at hn
              simp at hn
            have hsum : 0 < vs.sum :=
              List.sum_pos vs (fun x hx => hpos x (List.mem_cons_of_mem _ hx)) hvs
            rw [List.sum_cons]
            linarith
          · have hm : m < vs.length := by simpa using Nat.lt_of_succ_lt_succ hn
            have := ih (fun x hx => hpos x (List.mem_cons_of_mem _ hx)) m (acc + v) hm c hc
            rw [List.sum_cons]
            linarith

theorem paretoVals_pos {rows : List ModelRow}
    (hpos : ∀ p ∈ paretoGroups rows, 0 < p.2) :
    ∀ v ∈ paretoVals rows, 0 < v := by
  intro v hv
  obtain ⟨p, hp, rfl⟩ := List.mem_map.1 hv
  exact hpos p ((sortDescBy_perm Prod.snd (paretoGroups rows)).mem_iff.1 hp)

/-- C6 (amended): the Pareto table groups the fact rows by product name,
sums net sales and ranks descending; *provided every per-product net-sales
sum is positive* the cumulative fraction is non-decreasing along the
(200-capped) ranking, the last product's fraction is exactly 1 when the cap
does not truncate the list, and every fraction — in particular the last
one — is strictly below 1 when it does.  The cap itself always holds. -/
theorem pareto_props (rows : List ModelRow)
    (hpos : ∀ p ∈ paretoGroups rows, 0 < p.2) :
    (paretoOutput rows).length ≤ 200 ∧
    List.Chain' (· ≤ ·) (paretoOutput rows) ∧
    ((paretoPcts rows).length ≤ 200 → paretoPcts rows ≠ [] →
      (paretoOutput rows).getLast? = some 1) ∧
    (200 < (paretoPcts rows).length → ∀ x ∈ paretoOutput rows, x < 1) := by
  have hvpos := paretoVals_pos hpos
  refine ⟨List.length_take_le _ _, ?_, ?_, ?_⟩
  · apply List.Chain'.take
    rw [paretoPcts]
    apply List.chain'_map_of_chain' (fun c => c / (paretoVals rows).sum)
    · intro a b hab
      by_cases hne : paretoVals rows = []
      · rw [hne]
        simp [div_zero]
      · have hsum : 0 < (paretoVals rows).sum := List.sum_pos _ hvpos hne
        exact (div_le_div_iff_of_pos_right hsum).2 hab
    · exact cumFrom_chain _ (fun v hv => le_of_lt (hvpos v hv)) 0
  · intro hlen hne
    have hvne : paretoVals rows ≠ [] := by
      intro h
      apply hne
      rw [paretoPcts, h]
      rfl
    have hsum : 0 < (paretoVals rows).sum := List.sum_pos _ hvpos hvne
    rw [paretoOutput, List.take_of_length_le hlen, paretoPcts, List.getLast?_map,
      cumFrom_getLast? _ hvne 0]
    show some ((0 + (paretoVals rows).sum) / (paretoVals rows).sum) = some 1
    rw [zero_add, div_self (ne_of_gt hsum)]
  · intro hlen x hx
    rw [paretoOutput, paretoPcts] at hx
    rw [← List.map_take] at hx
    obtain ⟨c, hc, rfl⟩ := List.mem_map.1 hx
    have hvlen : 200 < (paretoVals rows).length := by
      rw [paretoPcts, List.length_map] at hlen
      have : (cumFrom 0 (paretoVals rows)).length = (paretoVals rows).length := by
        clear hc
        generalize (0 : ℚ) = acc
        induction paretoVals rows generalizing acc with
        | nil => rfl
        | cons v vs ih => simp [cumFrom, ih]
      omega
    have hvne : paretoVals rows ≠ [] := by
      intro h
      rw [h] at hvlen
      simp at hvlen
    have hsum : 0 < (paretoVals rows).sum := List.sum_pos _ hvpos hvne
    have hlt : c < 0 + (paretoVals rows).sum :=
      cumFrom_take_lt _ hvpos 200 0 hvlen c hc
    rw [zero_add] at hlt
    exact (div_lt_one hsum).2 hlt

/-- A fact row for product "A" with net sales 100
(`qty=1, unit_price=100, discount_pct=0`). -/
def paretoRowA : ModelRow :=
  ⟨⟨some 1, some 0, some 1, some 1, some 1, some 100, some 0⟩,
    some "A", none, none, none, none, none, none, 0⟩

/-- A fact row for product "B" with net sales −50
(`qty=1, unit_price=100, discount_pct=150` — a discount above 100% makes
net sales negative; the Cleaner never filters `discount_pct`). -/
def paretoRowB : ModelRow :=
  ⟨⟨some 2, some 0, some 1, some 1, some 1, some 100, some 150⟩,
    some "B", none, none, none, none, none, none, 0⟩

/-- C6 counterexample for the claim as stated: with product sums
A = 100 and B = −50 the cumulative fractions are `[2, 1]` — strictly
decreasing, refuting "the cumulative fraction is non-decreasing along the
ranking". -/
theorem pareto_cex :
    paretoOutput [paretoRowA, paretoRowB] = [2, 1] ∧
    ¬ List.Chain' (· ≤ ·) (paretoOutput [paretoRowA, paretoRowB]) := by
  have h : paretoOutput [paretoRowA, paretoRowB] = [2, 1] := by
    norm_num +decide [paretoOutput, paretoPcts, paretoVals, paretoGroups, groupSum, groupKeys,
      dedupByKey, dedupAux, sortDescBy, insertDescBy, cumFrom, netSalesOf, deriveMetrics,
      paretoRowA, paretoRowB, List.filterMap_cons, List.filter_cons, List.sum_cons,
      List.sum_nil, Option.map_some']
  refine ⟨h, ?_⟩
  rw [h]
  intro hchain
  have h21 := (List.chain'_cons.1 hchain).1
  norm_num at h21

/-- Witness for `pareto_props`: a single positive product gives a one-row
Pareto table whose last (and only) cumulative fraction is exactly 1. -/
theorem pareto_props_witness :
    (paretoOutput [paretoRowA]).getLast? = some 1 := by
  have hg : paretoGroups [paretoRowA] = [("A", 100)] := by
    norm_num +decide [paretoGroups, groupSum, groupKeys, dedupByKey, dedupAux, netSalesOf,
      deriveMetrics, paretoRowA, List.filterMap_cons, List.filter_cons, List.sum_cons,
      List.sum_nil, Option.map_some']
  have hp : paretoPcts [paretoRowA] = [1] := by
    norm_num +decide [paretoPcts, paretoVals, paretoGroups, groupSum, groupKeys, dedupByKey,
      dedupAux, netSalesOf, deriveMetrics, paretoRowA, sortDescBy, insertDescBy, cumFrom,
      List.filterMap_cons, List.filter_cons, List.sum_cons, List.sum_nil, Option.map_some']
  exact (pareto_props [paretoRowA]
      (by rw [hg]; intro p hp2; simp only [List.mem_singleton] at hp2; rw [hp2]; norm_num)).2.2.1
    (by rw [hp]; norm_num) (by rw [hp]; simp)

/-! ### Segmenter: RFM quintiles (`main.py`, step 11) -/

/-- The strict key order behind `Series.rank(method="first")`: entry `j`
precedes entry `i` when its value is smaller, or equal but earlier in the
column (stable tie-breaking by row position). -/
def keyLt (ms : List ℚ) (i j : Fin ms.length) : Prop :=
  ms.get i < ms.get j ∨ (ms.get i = ms.get j ∧ i < j)

instance (ms : List ℚ) : DecidableRel (keyLt ms) := fun i j => by
  unfold keyLt
  exact inferInstance

/-- `Series.rank(method="first")` at position `i`: the 1-based position of
entry `i` in a stable ascending sort, i.e. one plus the number of entries
preceding it in the strict key order. -/
def rankFirstAt (ms : List ℚ) (i : Fin ms.length) : ℕ :=
  1 + (Finset.univ.filter (fun j => keyLt ms j i)).card

/-- `pd.qcut(·, 5, labels=[1,2,3,4,5])` applied to the rank column
`1..n`: the bin edges are the linearly interpolated quantiles
`1 + t*(n-1)/5` and the bins are closed on the right, so rank `r` lands in
the least tier `t` with `5*(r-1) ≤ t*(n-1)`.  The edges are pairwise
distinct exactly when `2 ≤ n`; for a single-row column `pd.qcut` itself
raises on the duplicate edges, so this model only speaks for `2 ≤ n`. -/
def qcutTier (n r : ℕ) : ℕ :=
  if 5 * (r - 1) ≤ 1 * (n - 1) then 1
  else if 5 * (r - 1) ≤ 2 * (n - 1) then 2
  else if 5 * (r - 1) ≤ 3 * (n - 1) then 3
  else if 5 * (r - 1) ≤ 4 * (n - 1) then 4
  else 5

/-- The Monetary tier of customer `i`:
`pd.qcut(rfm["monetary"].rank(method="first"), 5, labels=[1,2,3,4,5])`
(the Frequency tier is computed the same way from the frequency column). -/
def mTier (ms : List ℚ) (i : Fin ms.length) : ℕ :=
  qcutTier ms.length (rankFirstAt ms i)

/-- `rfm["RFM_Score"] = rfm["R"]*100 + rfm["F"]*10 + rfm["M"]`. -/
def rfmScore (r f m : ℕ) : ℕ := r * 100 + f * 10 + m

theorem keyLt_irrefl (ms : List ℚ) (i : Fin ms.length) : ¬ keyLt ms i i := by
  simp [keyLt]

theorem keyLt_trans (ms : List ℚ) {i j k : Fin ms.length}
    (hij : keyLt ms i j) (hjk : keyLt ms j k) : keyLt ms i k := by
  rcases hij with h1 | ⟨h1, h1i⟩ <;> rcases hjk with h2 | ⟨h2, h2i⟩
  · exact Or.inl (lt_trans h1 h2)
  · exact Or.inl (h2 ▸ h1)
  · exact Or.inl (h1 ▸ h2)
  · exact Or.inr ⟨h1.trans h2, lt_trans h1i h2i⟩

theorem keyLt_total (ms : List ℚ) {i j : Fin ms.length} (hne : i ≠ j) :
    keyLt ms i j ∨ keyLt ms j i := by
  rcases lt_trichotomy (ms.get i) (ms.get j) with h | h | h
  · exact Or.inl (Or.inl h)
  · rcases lt_or_gt_of_ne hne with hij | hij
    · exact Or.inl (Or.inr ⟨h, hij⟩)
    · exact Or.inr (Or.inr ⟨h.symm, hij⟩)
  · exact Or.inr (Or.inl h)

theorem rank_lt_of_keyLt (ms : List ℚ) {i j : Fin ms.length} (h : keyLt ms i j) :
    rankFirstAt ms i < rankFirstAt ms j := by
  have hsub : insert i (Finset.univ.filter (fun k => keyLt ms k i))
      ⊆ Finset.univ.filter (fun k => keyLt ms k j) := by
    intro k hk
    rcases Finset.mem_insert.1 hk with rfl | hk
    · exact Finset.mem_filter.2 ⟨Finset.mem_univ _, h⟩
    · obtain ⟨-, hki⟩ := Finset.mem_filter.1 hk
      exact Finset.mem_filter.2 ⟨Finset.mem_univ _, keyLt_trans ms hki h⟩
  have hcard := Finset.card_le_card hsub
  rw [Finset.card_insert_of_not_mem (by simp [keyLt_irrefl ms i])] at hcard
  simp only [rankFirstAt]
  omega

theorem rank_injective (ms : List ℚ) : Function.Injective (rankFirstAt ms) := by
  intro i j hij
  by_contra hne
  rcases keyLt_total ms hne with h | h
  · exact absurd hij (Nat.ne_of_lt (rank_lt_of_keyLt ms h))
  · exact absurd hij.symm (Nat.ne_of_lt (rank_lt_of_keyLt ms h))

theorem rank_mem_Icc (ms : List ℚ) (i : Fin ms.length) :
    rankFirstAt ms i ∈ Finset.Icc 1 ms.length := by
  have hsub : Finset.univ.filter (fun k => keyLt ms k i) ⊆ Finset.univ.erase i := by
    intro k hk
    obtain ⟨-, hki⟩ := Finset.mem_filter.1 hk
    refine Finset.mem_erase.2 ⟨?_, Finset.mem_univ _⟩
    intro hkeq
    exact keyLt_irrefl ms i (hkeq ▸ hki)
  have hcard := Finset.card_le_card hsub
  rw [Finset.card_erase_of_mem (Finset.mem_univ _), Finset.card_univ, Fintype.card_fin]
    at hcard
  have hn : 0 < ms.length := i.pos
  simp only [rankFirstAt, Finset.mem_Icc]
  omega

theorem rank_image (ms : List ℚ) :
    Finset.univ.image (rankFirstAt ms) = Finset.Icc 1 ms.length := by
  apply Finset.eq_of_subset_of_card_le
  · intro r hr
    obtain ⟨i, -, rfl⟩ := Finset.mem_image.1 hr
    exact rank_mem_Icc ms i
  · rw [Finset.card_image_of_injective _ (rank_injective ms), Finset.card_univ,
      Fintype.card_fin, Nat.card_Icc]
    omega

theorem qcutTier_mem (n r : ℕ) : qcutTier n r ∈ Finset.Icc 1 5 := by
  unfold qcutTier
  split_ifs <;> decide

theorem qcutTier_mono (n : ℕ) {r s : ℕ} (hrs : r ≤ s) : qcutTier n r ≤ qcutTier n s := by
  unfold qcutTier
  split_ifs <;> omega

/-- C7: for *every* monetary column — tied values included — the strict
first-occurrence ranks are pairwise distinct, so the quintile cut is
applied to distinct values and every customer receives a tier in 1..5
(for at least two customers; with a single customer `pd.qcut` itself
raises on duplicate bin edges, so the model asserts nothing there);
larger monetary values never get a smaller tier (tier 5 = highest,
tier 1 = lowest); `RFM_Score = R*100 + F*10 + M`; and for 1000 customers
with pairwise distinct monetary values every one of the 5 tiers holds
exactly 200 customers. -/
theorem rfm_quintile_tiers (ms : List ℚ) (t : ℕ) (ht : t ∈ Finset.Icc 1 5) :
    Function.Injective (rankFirstAt ms) ∧
    (∀ i : Fin ms.length, 2 ≤ ms.length → mTier ms i ∈ Finset.Icc 1 5) ∧
    (∀ i j : Fin ms.length, ms.get i < ms.get j → mTier ms i ≤ mTier ms j) ∧
    (∀ r f m : ℕ, rfmScore r f m = r * 100 + f * 10 + m) ∧
    (ms.length = 1000 → ms.Nodup →
      (Finset.univ.filter (fun i : Fin ms.length => mTier ms i = t)).card = 200) := by
  refine ⟨rank_injective ms, fun i _ => qcutTier_mem _ _, ?_, fun r f m => rfl, ?_⟩
  · intro i j hij
    exact qcutTier_mono _ (le_of_lt (rank_lt_of_keyLt ms (Or.inl hij)))
  · intro hlen _hnd
    have hcount : (Finset.univ.filter
        (fun i : Fin ms.length => qcutTier ms.length (rankFirstAt ms i) = t)).card
        = ((Finset.univ.image (rankFirstAt ms)).filter
            (fun r => qcutTier ms.length r = t)).card := by
      rw [Finset.filter_image, Finset.card_image_of_injective _ (rank_injective ms)]
    show (Finset.univ.filter
        (fun i : Fin ms.length => qcutTier ms.length (rankFirstAt ms i) = t)).card = 200
    rw [hcount, rank_image ms, hlen]
    fin_cases ht <;>
      · set_option maxRecDepth 100000 in decide

/-- 1000 pairwise distinct monetary values. -/
def monetarySample : List ℚ := (List.range 1000).map (fun k : ℕ => (k : ℚ))

/-- Witness for `rfm_quintile_tiers`: with the 1000 distinct values
`0, 1, …, 999`, the M-tier 3 bucket holds exactly 200 customers. -/
theorem rfm_quintile_tiers_witness :
    (Finset.univ.filter
      (fun i : Fin monetarySample.length => mTier monetarySample i = 3)).card = 200 :=
  (rfm_quintile_tiers monetarySample 3 (by decide)).2.2.2.2
    (by rw [monetarySample, List.length_map, List.length_range])
    (List.Nodup.map (fun _ _ h => Nat.cast_injective h) (List.nodup_range 1000))

/-! ### Schema validation (`excel_report_automation.py`, `main`, lines 38-49) -/

/-- A raw sheet as loaded: header names plus rows of optional cells. -/
structure SheetTable where
  cols : List String
  rows : List (List (Option String))
  deriving DecidableEq, Repr

/-- The steps of `excel_report_automation.main` up to and including the
required-column check, in program order. -/
inductive CleanStep
  | normalizeColumns
  | dropEmptyRows
  | schemaCheck
  deriving DecidableEq, Repr

/-- `required = {"Date", "Product", "Region", "Sales"}`. -/
def requiredCols : List String := ["Date", "Product", "Region", "Sales"]

/-- `df.columns = [c.strip().title() for c in df.columns]`. -/
def normalizeColumns (t : SheetTable) : SheetTable :=
  { t with cols := t.cols.map (fun c => pyTitle (pyStrip c)) }

/-- `df = df.dropna(how="all")`: remove the rows whose every cell is
missing. -/
def dropEmptyRows (t : SheetTable) : SheetTable :=
  { t with rows := t.rows.filter (fun r => r.any (·.isSome)) }

/-- `missing = required - set(df.columns); if missing: raise ValueError`. -/
def schemaMissing (t : SheetTable) : Bool :=
  requiredCols.any (fun c => !(t.cols.contains c))

/-- The opening of `excel_report_automation.main`: column-name
normalization, removal of fully empty rows, then the required-column
check.  The first component records the transformation steps performed
before the pipeline either aborts (`none` — the raised `ValueError`
reaches the top, so no output workbook is written) or hands the frame to
the value-level transformations (`some`). -/
def cleanPrefix (t : SheetTable) : List CleanStep × Option SheetTable :=
  let t2 := dropEmptyRows (normalizeColumns t)
  if schemaMissing t2 then ([CleanStep.normalizeColumns, CleanStep.dropEmptyRows], none)
  else ([CleanStep.normalizeColumns, CleanStep.dropEmptyRows, CleanStep.schemaCheck], some t2)

/-- C9 (amended): when a required column is absent (after column-name
normalization) the run aborts fatally and produces no output, but the
validation runs only *after* two cleaning steps — column-name
normalization and fully-empty-row removal — and before everything else. -/
theorem schema_check_aborts (t : SheetTable)
    (h : schemaMissing (normalizeColumns t) = true) :
    (cleanPrefix t).2 = none ∧
    (cleanPrefix t).1 = [CleanStep.normalizeColumns, CleanStep.dropEmptyRows] := by
  have h2 : schemaMissing (dropEmptyRows (normalizeColumns t))
      = schemaMissing (normalizeColumns t) := rfl
  constructor <;> simp [cleanPrefix, h2, h]

/-- A sheet whose normalized header lacks the required `Sales` column and
whose first row is fully empty. -/
def sheetMissingSales : SheetTable :=
  ⟨["date", "product", "region"],
    [[none, none, none], [some "x", some "y", some "z"]]⟩

/-- C9 counterexample for the claim as stated: on a sheet missing `Sales`,
the run does fail fatally before producing output, but *after* data
transformations have been performed — the fully-empty first row has
already been removed when the schema check fires, so validation does not
precede all cleaning steps. -/
theorem schema_check_cex :
    (cleanPrefix sheetMissingSales).2 = none ∧
    (cleanPrefix sheetMissingSales).1 ≠ [] ∧
    (dropEmptyRows (normalizeColumns sheetMissingSales)).rows ≠ sheetMissingSales.rows := by
  refine ⟨?_, ?_, ?_⟩ <;> decide

/-- Witness for `schema_check_aborts` at the concrete sheet. -/
theorem schema_check_aborts_witness :
    (cleanPrefix sheetMissingSales).2 = none ∧
    (cleanPrefix sheetMissingSales).1
      = [CleanStep.normalizeColumns, CleanStep.dropEmptyRows] :=
  schema_check_aborts sheetMissingSales (by decide)

end Pipeline
